import Mathlib

/-!
# Kaspa auction server — verification of the settlement engine and chain watcher

Shallow embedding of the core of the kaspa_auction_server repository:

* `AuctionEngine.processOnChainBid` (src/src/engine.ts), the persistent
  (mongoose) settlement engine: idempotency check, advisory on-chain
  re-verification, liveness, minimum-increment, lazy expiry, commit, and the
  optimistic-concurrency retry loop (3 attempts on VersionError).
* `AuctionEngine.finalizeAuction`, `deleteAuction`, `cleanupOldAuctions`.
* `KaspaService.monitorAddress` / `getAddressUtxos` (src/src/kaspa.ts and the
  retry variant), the chain watcher's per-tick UTXO diff.
* `KaspaService.fetchWithRetry` (retry variant), the ledger client's
  retry × fallback policy.

Amounts are modelled as exact rationals (JS numbers carry KAS amounts, whose
sompi conversions divide/multiply by 10^8); timestamps as integer epoch
milliseconds.  Side effects are made explicit: the store read of each retry
attempt and the success of each conditional save are supplied by an
environment, and each `auction.save()` payload is returned as a write.
-/

namespace KaspaAuction

/-- Bid status (types/auction.ts `BidStatus`). -/
inductive BidStatus
  | pending
  | detected
  | confirmed
deriving DecidableEq, Repr

/-- Auction status (types/auction.ts `AuctionStatus`).  The engine only ever
tests for `ended`. -/
inductive AuctionStatus
  | live
  | endingSoon
  | ended
  | upcoming
deriving DecidableEq, Repr

/-- A settled bid as constructed by `processOnChainBid` (engine.ts lines
84-92): id and txHash are both the settling transaction hash, amount is in
KAS. -/
structure Bid where
  id : String
  auctionId : String
  bidderAddress : String
  amount : ℚ
  timestamp : Int
  status : BidStatus
  txHash : String
deriving DecidableEq, Repr

/-- The auction aggregate, restricted to the fields the engine reads or
writes (models/Auction.ts schema).  `highestBidder` carries the address. -/
structure Auction where
  id : String
  startPrice : ℚ
  currentPrice : ℚ
  minimumIncrement : ℚ
  endTime : Int
  status : AuctionStatus
  bids : List Bid
  bidCount : Int
  highestBidder : Option String
deriving DecidableEq, Repr

/-- The caller-supplied candidate payment event (`txData` parameter of
`processOnChainBid`): transaction hash, claimed amount in KAS, claimed
sender, observation timestamp. -/
structure TxData where
  hash : String
  amount : ℚ
  sender : String
  timestamp : Int
deriving DecidableEq, Repr

/-- The ledger's answer to `verifyTransaction`, restricted to what
engine.ts consumes: the transaction's output amounts in sompi. -/
structure TxOnChain where
  outputs : List Int
deriving DecidableEq, Repr

/-- engine.ts line 56: `txOnChain?.outputs.some(out => Math.abs(out.amount -
sompiBid) < 10000)` with `sompiBid = txData.amount * 1e8`; `none` when the
ledger fetch failed (`txOnChain` null). -/
def hasMatchingOutput (txOnChain : Option TxOnChain) (amount : ℚ) : Option Bool :=
  txOnChain.map fun t =>
    t.outputs.any fun out => decide (|((out : ℚ)) - amount * 100000000| < 10000)

/-- The distinct exit points of `processOnChainBid` that hand `null` back to
the caller.  Each constructor corresponds to one `return null` program point
(with its own log line) in engine.ts. -/
inductive Reason
  | notFound
  | ended
  | belowMin
  | expired
  | conflictExhausted
deriving DecidableEq, Repr

/-- Outcome of `processOnChainBid`: a freshly accepted bid, the existing bid
returned by the idempotency check, or one of the `return null` exits. -/
inductive ProcOutcome
  | accepted (b : Bid)
  | duplicate (b : Bid)
  | rejected (r : Reason)
deriving DecidableEq, Repr

/-- The value the caller actually receives (`Bid | null`): every rejection
exit returns `null`, indistinguishably. -/
def retVal : ProcOutcome → Option Bid
  | .accepted b => some b
  | .duplicate b => some b
  | .rejected _ => none

/-- One retry attempt's outcome: the control-flow result plus the
`auction.save()` payload this attempt wants to persist, if it reached a
save. -/
structure AttemptOut where
  outcome : ProcOutcome
  write : Option Auction
deriving DecidableEq, Repr

/-- One iteration of the `while (retries > 0)` body of engine.ts lines
39-105, evaluated against the auction returned by this attempt's
`findOne` (`readAuction`).  Rule order is exactly the source order:
missing auction, idempotency, advisory re-verification (computed and
discarded — the strict-mode `return null` at line 60 is commented out in
the source), `ended` status, minimum increment over
`currentPrice || startPrice`, lazy expiry (which persists the `ended`
transition), then bid construction and commit. -/
def processAttempt (verify : Option TxOnChain) (now : Int)
    (readAuction : Option Auction) (tx : TxData) : AttemptOut :=
  match readAuction with
  | none => ⟨.rejected .notFound, none⟩
  | some auction =>
    match auction.bids.find? (fun b => b.txHash == tx.hash) with
    | some existingBid => ⟨.duplicate existingBid, none⟩
    | none =>
      let _ := hasMatchingOutput verify tx.amount
      if auction.status = AuctionStatus.ended then
        ⟨.rejected .ended, none⟩
      else
        let currentPrice := if auction.currentPrice = 0 then auction.startPrice
                            else auction.currentPrice
        if tx.amount < currentPrice + auction.minimumIncrement then
          ⟨.rejected .belowMin, none⟩
        else if auction.endTime < now then
          ⟨.rejected .expired, some { auction with status := AuctionStatus.ended }⟩
        else
          let newBid : Bid :=
            ⟨tx.hash, auction.id, tx.sender, tx.amount, tx.timestamp,
              BidStatus.detected, tx.hash⟩
          ⟨.accepted newBid,
            some { auction with
                    bids := newBid :: auction.bids,
                    bidCount := auction.bidCount + 1,
                    currentPrice := tx.amount,
                    highestBidder := some tx.sender }⟩

/-- The environment of one retry attempt: the auction state the attempt's
`findOne` returns (concurrent writers may have changed it between attempts)
and whether this attempt's conditional save succeeds (`false` = mongoose
VersionError). -/
structure Attempt where
  readAuction : Option Auction
  saveOk : Bool

/-- The retry loop of engine.ts lines 36-118: `retries = 3`, decremented
only on VersionError; an attempt whose save succeeds (or that needs no
save) returns its outcome; exhausting the attempts falls through to the
final `return null` (line 118).  Returns the outcome and the list of
successfully persisted writes. -/
def processLoop (verify : Option TxOnChain) (now : Int) (tx : TxData)
    (env : Nat → Attempt) : Nat → Nat → ProcOutcome × List Auction
  | _, 0 => (.rejected .conflictExhausted, [])
  | k, fuel + 1 =>
    let a := env k
    let out := processAttempt verify now a.readAuction tx
    match out.write with
    | none => (out.outcome, [])
    | some w =>
      if a.saveOk then (out.outcome, [w])
      else processLoop verify now tx env (k + 1) fuel

/-- `AuctionEngine.processOnChainBid`: run the retry loop with its design
budget of 3 attempts. -/
def processOnChainBid (verify : Option TxOnChain) (now : Int) (tx : TxData)
    (env : Nat → Attempt) : ProcOutcome × List Auction :=
  processLoop verify now tx env 0 3

/-- `AuctionEngine.finalizeAuction` (engine.ts lines 121-128): returns the
auction with status forced to `ended` and persists that same record. -/
def finalizeAuction (readAuction : Option Auction) : Option Auction × Option Auction :=
  match readAuction with
  | none => (none, none)
  | some a =>
    let a2 := { a with status := AuctionStatus.ended }
    (some a2, some a2)

/-- `AuctionEngine.deleteAuction` (engine.ts lines 130-140): refuse when the
auction is missing or has any bid; otherwise remove the record (ids are
unique in the schema). -/
def deleteAuction (store : List Auction) (auctionId : String) : Bool × List Auction :=
  match store.find? (fun a => a.id == auctionId) with
  | none => (false, store)
  | some a =>
    if a.bids.length > 0 then (false, store)
    else (true, store.filter (fun a2 => a2.id != auctionId))

/-- 60 days in milliseconds (engine.ts line 143, `TWO_MONTHS_MS`). -/
def twoMonthsMs : Int := 60 * 24 * 60 * 60 * 1000

/-- `AuctionEngine.cleanupOldAuctions` (engine.ts lines 142-154):
`deleteMany` of every auction whose `endTime` precedes `now - 60 days`,
with no condition on the bid list. -/
def cleanupOldAuctions (now : Int) (store : List Auction) : List Auction :=
  store.filter fun a => !(decide (a.endTime < now - twoMonthsMs))

/-! ## Chain watcher (KaspaService.monitorAddress / getAddressUtxos) -/

/-- A UTXO as mapped by `getAddressUtxos`: `utxoId` is the string
`transactionId:index` kept here in structured form (the transaction hash is
colon-free hex, so `utxoId.split(':')[0]` recovers `txId`); `amount` is in
sompi. -/
structure Utxo where
  txId : String
  index : Nat
  amount : Int
deriving DecidableEq, Repr

/-- The identity key the watcher diffs on (kaspa.ts line 125/129):
`utxoId + "-" + amount`, i.e. transactionId:outputIndex together with the
amount. -/
def utxoKey (u : Utxo) : String :=
  u.txId ++ ":" ++ toString u.index ++ "-" ++ toString u.amount

/-- The fields of `verifyTransaction`'s answer the watcher forwards into a
candidate: resolved sender (possibly unresolved) and block timestamp. -/
structure TxInfo where
  sender : Option String
  timestamp : Int
deriving DecidableEq, Repr

/-- The emitted `BidCandidate` payload (kaspa.ts lines 137-142): transaction
hash, amount converted from sompi to KAS, resolved sender, timestamp. -/
structure Candidate where
  hash : String
  amount : ℚ
  sender : Option String
  timestamp : Int
deriving DecidableEq, Repr

/-- Candidate built for a newly observed UTXO once its transaction resolved. -/
def mkCandidate (u : Utxo) (t : TxInfo) : Candidate :=
  ⟨u.txId, (u.amount : ℚ) / 100000000, t.sender, t.timestamp⟩

/-- Watcher state between ticks: the baseline key set (`lastSeenUtxos`) and
the cold-start flag (`isFirstCheck`). -/
structure WatchState where
  lastSeen : List String
  isFirst : Bool
deriving DecidableEq, Repr

/-- The emission pass of one tick (kaspa.ts lines 128-145): for each UTXO of
the current snapshot whose key is absent from the baseline, resolve its
transaction and, if resolution succeeds, emit a candidate; resolution
failure drops the candidate. -/
def emitForTick (resolve : String → Option TxInfo) (prev : List String)
    (utxos : List Utxo) : List Candidate :=
  utxos.filterMap fun u =>
    if utxoKey u ∈ prev then none
    else (resolve u.txId).map (mkCandidate u)

/-- One full `check` tick (kaspa.ts lines 120-153): skip emission on the
first tick, then replace the baseline with the current snapshot's keys
unconditionally and clear the cold-start flag. -/
def checkTick (resolve : String → Option TxInfo) (st : WatchState)
    (utxos : List Utxo) : WatchState × List Candidate :=
  let current := utxos.map utxoKey
  let emitted := if st.isFirst then [] else emitForTick resolve st.lastSeen utxos
  (⟨current, false⟩, emitted)

/-- Outcome of the tick's HTTP fetch, before `getAddressUtxos` translates
it. -/
inductive FetchResult
  | ok (utxos : List Utxo)
  | fail
deriving DecidableEq, Repr

/-- `KaspaService.getAddressUtxos` (kaspa.ts lines 23-50): invalid address
returns `[]` locally; a fetch error is caught and also returns `[]` — the
caller cannot tell a failed fetch from an empty UTXO set.  (The non-array
guard in `monitorAddress` therefore never fires on a fetch failure.) -/
def getAddressUtxos (validAddr : Bool) (r : FetchResult) : List Utxo :=
  if validAddr then
    match r with
    | .ok utxos => utxos
    | .fail => []
  else []

/-- One watcher tick as actually composed in the source: fetch via
`getAddressUtxos`, then run the diff-and-emit pass on whatever list came
back. -/
def monitorTick (resolve : String → Option TxInfo) (validAddr : Bool)
    (r : FetchResult) (st : WatchState) : WatchState × List Candidate :=
  checkTick resolve st (getAddressUtxos validAddr r)

/-! ## Ledger client (KaspaService.fetchWithRetry, retry variant) -/

/-- One HTTP attempt's outcome as classified by the catch block: success
with data, a 404 response (definitive not-found), or any other failure. -/
inductive AttemptR (α ε : Type)
  | ok (d : α)
  | notFound (e : ε)
  | fail (e : ε)
deriving DecidableEq, Repr

/-- Result of running the retry budget on one endpoint: terminated (either
returned data or threw the 404 error), or exhausted with the last error
observed so far. -/
inductive UrlOut (α ε : Type)
  | done (r : Except ε α)
  | exhausted (lastError : Option ε)

/-- The inner `for (let i = 0; i < retries; i++)` loop of `fetchWithRetry`
(models/Auction.ts lines 70-95) on one endpoint, starting at attempt `i`
with `fuel` attempts left: success returns the data, a 404 is thrown
immediately, any other failure records `lastError`, performs the
exponential backoff `2^i * 1000` when further attempts remain on this
endpoint, and retries.  Also returns the trace of attempts made and the
backoff delays performed. -/
def runUrl (f : String → Nat → AttemptR α ε) (url : String) :
    Nat → Nat → Option ε → UrlOut α ε × List (String × Nat) × List Nat
  | _, 0, lastError => (.exhausted lastError, [], [])
  | i, fuel + 1, _ =>
    match f url i with
    | .ok d => (.done (.ok d), [(url, i)], [])
    | .notFound e => (.done (.error e), [(url, i)], [])
    | .fail e =>
      let waits := if fuel > 0 then [2 ^ i * 1000] else []
      let rest := runUrl f url (i + 1) fuel (some e)
      (rest.1, (url, i) :: rest.2.1, waits ++ rest.2.2)

/-- The outer endpoint loop of `fetchWithRetry` (models/Auction.ts lines
69-99): run each endpoint's retry budget in order; a terminated inner loop
ends the whole call (a thrown 404 propagates as `.error (some e)`); after
the last endpoint, throw the last observed error. -/
def runUrls (f : String → Nat → AttemptR α ε) (retries : Nat) :
    List String → Option ε → Except (Option ε) α × List (String × Nat) × List Nat
  | [], lastError => (.error lastError, [], [])
  | url :: rest, lastError =>
    match runUrl f url 0 retries lastError with
    | (.done (.ok d), t, w) => (.ok d, t, w)
    | (.done (.error e), t, w) => (.error (some e), t, w)
    | (.exhausted le2, t, w) =>
      let r2 := runUrls f retries rest le2
      (r2.1, t ++ r2.2.1, w ++ r2.2.2)

/-- `KaspaService.fetchWithRetry` (models/Auction.ts lines 65-100): endpoint
order is the primary followed by the de-duplicated fallbacks, each given the
fixed retry count 3. -/
def fetchWithRetry (f : String → Nat → AttemptR α ε) (primary : String)
    (fallbacks : List String) :
    Except (Option ε) α × List (String × Nat) × List Nat :=
  runUrls f 3 (primary :: fallbacks.filter (fun u => u != primary)) none

/-! ## Derived record shapes of the engine's accept path -/

/-- The bid `processOnChainBid` constructs on the accept path (engine.ts
lines 84-92). -/
def mkBid (a : Auction) (tx : TxData) : Bid :=
  ⟨tx.hash, a.id, tx.sender, tx.amount, tx.timestamp, BidStatus.detected, tx.hash⟩

/-- The auction record the accept path persists (engine.ts lines 95-102):
bid prepended, count incremented, price and highest bidder updated. -/
def commitAuction (a : Auction) (tx : TxData) : Auction :=
  { a with
      bids := mkBid a tx :: a.bids,
      bidCount := a.bidCount + 1,
      currentPrice := tx.amount,
      highestBidder := some tx.sender }

/-! ## Concrete instances used by the closed witness statements -/

/-- A settled bid on the witness auction. -/
def c1Bid : Bid := ⟨"h1", "a1", "alice", 100, 5, .detected, "h1"⟩

/-- A live auction already holding `c1Bid`. -/
def c1Auction : Auction := ⟨"a1", 50, 100, 10, 1000, .live, [c1Bid], 1, some "alice"⟩

/-- A candidate re-delivering `c1Bid`'s transaction. -/
def c1Tx : TxData := ⟨"h1", 100, "alice", 5⟩

/-- Store environment that always reads `c1Auction` and saves cleanly. -/
def c1Env : Nat → Attempt := fun _ => ⟨some c1Auction, true⟩

/-- A live auction with no bids yet. -/
def c1Fresh : Auction := ⟨"a1", 50, 100, 10, 1000, .live, [], 0, none⟩

/-- A fresh, sufficiently high candidate for `c1Fresh`. -/
def c1Tx2 : TxData := ⟨"h2", 110, "bob", 6⟩

/-- Environment reading `c1Fresh` with clean saves. -/
def c1EnvFresh : Nat → Attempt := fun _ => ⟨some c1Fresh, true⟩

/-- Environment reading the state persisted by accepting `c1Tx2`. -/
def c1Env2 : Nat → Attempt := fun _ => ⟨some (commitAuction c1Fresh c1Tx2), true⟩

/-- Attempt oracle: endpoint e1 always fails, any other endpoint succeeds
on its first attempt. -/
def c8f : String → Nat → AttemptR Nat Nat := fun u i =>
  if u = "e1" then .fail (100 + i) else if i = 0 then .ok 42 else .fail 0

/-- A long-ended auction that still holds one bid. -/
def c9Auction : Auction :=
  ⟨"ak", 50, 100, 10, 0, .ended,
    [⟨"hk", "ak", "kim", 100, 1, .detected, "hk"⟩], 1, some "kim"⟩

/-! ## Helper lemmas: single-run characterizations of the retry loop -/

/-- A candidate none of whose bids carries the hash makes the idempotency
lookup come back empty. -/
lemma find?_none_of_fresh {l : List Bid} {h : String}
    (hne : ∀ b ∈ l, b.txHash ≠ h) :
    l.find? (fun b => b.txHash == h) = none :=
  List.find?_eq_none.mpr fun b hb => by simp [hne b hb]

/-- A missing auction is rejected on the first attempt with no write. -/
lemma processOnChainBid_notFound_run {v : Option TxOnChain} {n : Int}
    {t : TxData} {e : Nat → Attempt} {s : Bool}
    (he : e 0 = ⟨none, s⟩) :
    processOnChainBid v n t e = (.rejected .notFound, []) := by
  simp [processOnChainBid, processLoop, processAttempt, he]

/-- A hash already present in the bid list short-circuits to the found bid
with no write. -/
lemma processOnChainBid_duplicate_run {v : Option TxOnChain} {n : Int}
    {t : TxData} {e : Nat → Attempt} {a : Auction} {s : Bool} {b : Bid}
    (he : e 0 = ⟨some a, s⟩)
    (hf : a.bids.find? (fun x => x.txHash == t.hash) = some b) :
    processOnChainBid v n t e = (.duplicate b, []) := by
  simp [processOnChainBid, processLoop, processAttempt, he, hf]

/-- An ended auction rejects a fresh candidate with no write. -/
lemma processOnChainBid_ended_run {v : Option TxOnChain} {n : Int}
    {t : TxData} {e : Nat → Attempt} {a : Auction} {s : Bool}
    (he : e 0 = ⟨some a, s⟩)
    (hf : a.bids.find? (fun x => x.txHash == t.hash) = none)
    (hd : a.status = AuctionStatus.ended) :
    processOnChainBid v n t e = (.rejected .ended, []) := by
  simp [processOnChainBid, processLoop, processAttempt, he, hf, hd]

/-- An amount below the effective floor is rejected with no write. -/
lemma processOnChainBid_belowMin_run {v : Option TxOnChain} {n : Int}
    {t : TxData} {e : Nat → Attempt} {a : Auction} {s : Bool}
    (he : e 0 = ⟨some a, s⟩)
    (hf : a.bids.find? (fun x => x.txHash == t.hash) = none)
    (hl : ¬ a.status = AuctionStatus.ended)
    (hm : t.amount <
      (if a.currentPrice = 0 then a.startPrice else a.currentPrice) + a.minimumIncrement) :
    processOnChainBid v n t e = (.rejected .belowMin, []) := by
  simp [processOnChainBid, processLoop, processAttempt, he, hf, hl, hm]

/-- A fresh, live, sufficiently high, unexpired candidate whose save
succeeds is accepted and the commit record persisted. -/
lemma processOnChainBid_accept_run {v : Option TxOnChain} {n : Int}
    {t : TxData} {e : Nat → Attempt} {a : Auction}
    (he : e 0 = ⟨some a, true⟩)
    (hf : a.bids.find? (fun x => x.txHash == t.hash) = none)
    (hl : ¬ a.status = AuctionStatus.ended)
    (hm : ¬ t.amount <
      (if a.currentPrice = 0 then a.startPrice else a.currentPrice) + a.minimumIncrement)
    (hx : ¬ a.endTime < n) :
    processOnChainBid v n t e = (.accepted (mkBid a t), [commitAuction a t]) := by
  simp [processOnChainBid, processLoop, processAttempt, he, hf, hl, hm, hx,
    mkBid, commitAuction]

/-- When every conditional save conflicts, the three attempts are consumed
and the loop falls through to the final `return null`. -/
lemma processOnChainBid_conflict_run {v : Option TxOnChain} {n : Int}
    {t : TxData} {e : Nat → Attempt} {a : Auction}
    (he : ∀ k, e k = ⟨some a, false⟩)
    (hf : a.bids.find? (fun x => x.txHash == t.hash) = none)
    (hl : ¬ a.status = AuctionStatus.ended)
    (hm : ¬ t.amount <
      (if a.currentPrice = 0 then a.startPrice else a.currentPrice) + a.minimumIncrement)
    (hx : ¬ a.endTime < n) :
    processOnChainBid v n t e = (.rejected .conflictExhausted, []) := by
  simp [processOnChainBid, processLoop, processAttempt, he, hf, hl, hm, hx]

/-- Inversion: an attempt that produced an accepted bid reached the commit,
so its bid carries the candidate's hash and its write prepends that bid. -/
lemma processAttempt_accepted_eq {v : Option TxOnChain} {n : Int}
    {r : Option Auction} {t : TxData} {B : Bid} {o : Option Auction}
    (h : processAttempt v n r t = ⟨.accepted B, o⟩) :
    B.txHash = t.hash ∧ ∃ w rest, o = some w ∧ w.bids = B :: rest := by
  match r with
  | none => simp [processAttempt] at h
  | some a =>
    simp only [processAttempt] at h
    repeat' split at h
    all_goals injection h with h1 h2
    all_goals
      first
        | exact ProcOutcome.noConfusion h1
        | (injection h1 with hB; subst hB; exact ⟨rfl, _, a.bids, h2.symm, rfl⟩)

/-- Inversion lifted through the retry loop: an accepted run performed
exactly one successful write, whose bid list starts with the accepted bid. -/
lemma processLoop_accepted {v : Option TxOnChain} {n : Int} {t : TxData}
    {e : Nat → Attempt} {B : Bid} {ws : List Auction} :
    ∀ k fuel, processLoop v n t e k fuel = (.accepted B, ws) →
    B.txHash = t.hash ∧ ∃ w rest, ws = [w] ∧ w.bids = B :: rest := by
  intro k fuel
  induction fuel generalizing k with
  | zero => intro h; simp [processLoop] at h
  | succ m ih =>
    intro h
    simp only [processLoop] at h
    split at h
    · rename_i hw
      injection h with h1 h2
      have hpair : processAttempt v n (e k).readAuction t
          = ⟨ProcOutcome.accepted B, (processAttempt v n (e k).readAuction t).write⟩ := by
        rw [← h1]
      obtain ⟨_, w, rest, hww, _⟩ := processAttempt_accepted_eq hpair
      rw [hw] at hww; cases hww
    · rename_i w hw
      split at h
      · injection h with h1 h2
        have hpair : processAttempt v n (e k).readAuction t
            = ⟨ProcOutcome.accepted B, (processAttempt v n (e k).readAuction t).write⟩ := by
          rw [← h1]
        obtain ⟨hB, w2, rest, hww, hbids⟩ := processAttempt_accepted_eq hpair
        rw [hw] at hww
        injection hww with hww
        subst hww
        exact ⟨hB, w, rest, h2.symm, hbids⟩
      · exact ih (k + 1) h

/-- One emission per qualifying snapshot entry: the tick's candidate list
is exactly as long as the list of current UTXOs that are new and resolve. -/
lemma emitForTick_length (resolve : String → Option TxInfo) (prev : List String) :
    ∀ l : List Utxo, (emitForTick resolve prev l).length =
      (l.filter fun u => !(decide (utxoKey u ∈ prev)) && (resolve u.txId).isSome).length := by
  intro l
  induction l with
  | nil => rfl
  | cons u l ih =>
    simp only [emitForTick, List.filterMap_cons, List.filter_cons] at ih ⊢
    by_cases hc : utxoKey u ∈ prev
    · simp [hc, ih]
    · cases hr : resolve u.txId <;> simp [hc, hr, ih]

/-! ## Claim theorems -/

/-- C1.  Idempotency of settlement: when the auction's bid list already
contains a bid with the candidate's transaction id, `processOnChainBid`
returns that existing bid and performs no write; in particular, after a
call that accepted a bid, a second call with the same transaction id
returns that identical bid and again writes nothing, so `bidCount` after
the second call equals `bidCount` after the first. -/
theorem processOnChainBid_idempotent :
    (∀ (verify : Option TxOnChain) (now : Int) (tx : TxData) (env : Nat → Attempt)
        (a : Auction) (s : Bool), env 0 = ⟨some a, s⟩ →
        (∃ b ∈ a.bids, b.txHash = tx.hash) →
        ∃ b0 ∈ a.bids, b0.txHash = tx.hash ∧
          processOnChainBid verify now tx env = (.duplicate b0, []))
    ∧
    (∀ (verify verify2 : Option TxOnChain) (now now2 : Int) (tx : TxData)
        (env env2 : Nat → Attempt) (B : Bid) (w : Auction) (s : Bool),
        processOnChainBid verify now tx env = (.accepted B, [w]) →
        env2 0 = ⟨some w, s⟩ →
        processOnChainBid verify2 now2 tx env2 = (.duplicate B, [])) := by
  constructor
  · intro verify now tx env a s henv hex
    have hsome : (a.bids.find? (fun b => b.txHash == tx.hash)).isSome := by
      rw [List.find?_isSome]
      obtain ⟨b, hb, he⟩ := hex
      exact ⟨b, hb, by simp [he]⟩
    obtain ⟨b0, hfind⟩ := Option.isSome_iff_exists.mp hsome
    refine ⟨b0, List.mem_of_find?_eq_some hfind, ?_,
      processOnChainBid_duplicate_run henv hfind⟩
    simpa using List.find?_some hfind
  · intro verify verify2 now now2 tx env env2 B w s h1 henv2
    obtain ⟨hB, w2, rest, hws, hbids⟩ := processLoop_accepted 0 3 h1
    injection hws with hw hnil
    subst hw
    have hfind : w.bids.find? (fun b => b.txHash == tx.hash) = some B := by
      rw [hbids]
      exact List.find?_cons_of_pos _ (by simp [hB])
    exact processOnChainBid_duplicate_run henv2 hfind

/-- C1 witness: on `c1Auction`, which already holds the bid for hash h1,
re-submitting h1 returns that bid with no write; and after accepting
`c1Tx2` on the fresh auction, re-submitting the same hash returns the
identical accepted bid with no write. -/
theorem processOnChainBid_idempotent_witness :
    (∃ b0 ∈ c1Auction.bids, b0.txHash = c1Tx.hash ∧
       processOnChainBid none 0 c1Tx c1Env = (.duplicate b0, []))
    ∧ processOnChainBid none 7 c1Tx2 c1Env2 = (.duplicate (mkBid c1Fresh c1Tx2), []) :=
  ⟨processOnChainBid_idempotent.1 none 0 c1Tx c1Env c1Auction true rfl
      ⟨c1Bid, by simp [c1Auction], rfl⟩,
   processOnChainBid_idempotent.2 none none 0 7 c1Tx2 c1EnvFresh c1Env2
      (mkBid c1Fresh c1Tx2) (commitAuction c1Fresh c1Tx2) true
      (processOnChainBid_accept_run rfl rfl (by decide) (by norm_num [c1Fresh, c1Tx2])
        (by decide))
      rfl⟩

/-- C2 counterexample: the claim quantifies over every live, unexpired
auction, but on one whose stored `currentPrice` is 0 (startPrice 100,
increment 10) a candidate offering exactly `currentPrice +
minimumIncrement = 10` is rejected as below minimum, because the code
evaluates the rule against `currentPrice || startPrice`. -/
theorem minIncrement_zeroPrice_cex :
    (⟨"a2", 100, 0, 10, 1000, .live, [], 0, none⟩ : Auction).status = AuctionStatus.live
    ∧ ¬ (⟨"a2", 100, 0, 10, 1000, .live, [], 0, none⟩ : Auction).endTime < (0 : Int)
    ∧ (⟨"t2", 10, "dave", 0⟩ : TxData).amount =
        (⟨"a2", 100, 0, 10, 1000, .live, [], 0, none⟩ : Auction).currentPrice +
        (⟨"a2", 100, 0, 10, 1000, .live, [], 0, none⟩ : Auction).minimumIncrement
    ∧ processOnChainBid none 0 ⟨"t2", 10, "dave", 0⟩
        (fun _ => ⟨some ⟨"a2", 100, 0, 10, 1000, .live, [], 0, none⟩, true⟩)
        = (.rejected .belowMin, []) := by
  refine ⟨rfl, by decide, by norm_num, ?_⟩
  exact processOnChainBid_belowMin_run rfl rfl (by decide) (by norm_num)

/-- C2 (amended).  Minimum-increment boundary for live, unexpired auctions
whose stored `currentPrice` is nonzero and whose candidate is fresh: an
amount of exactly `currentPrice + minimumIncrement` is accepted and
committed, and any smaller amount is rejected at the below-minimum exit
with no write.  (The zero-`currentPrice` case instead uses `startPrice`;
see the zero-price fallback theorem.) -/
theorem minIncrement_boundary :
    ∀ (verify : Option TxOnChain) (now : Int) (tx : TxData) (env : Nat → Attempt)
      (a : Auction),
    env 0 = ⟨some a, true⟩ →
    (∀ b ∈ a.bids, b.txHash ≠ tx.hash) →
    a.status = AuctionStatus.live →
    ¬ a.endTime < now →
    a.currentPrice ≠ 0 →
    ((tx.amount = a.currentPrice + a.minimumIncrement →
        processOnChainBid verify now tx env = (.accepted (mkBid a tx), [commitAuction a tx]))
     ∧ (tx.amount < a.currentPrice + a.minimumIncrement →
        processOnChainBid verify now tx env = (.rejected .belowMin, []))) := by
  intro verify now tx env a henv hne hlive hexp hcp
  have hfind := find?_none_of_fresh (h := tx.hash) hne
  have hfloor : (if a.currentPrice = 0 then a.startPrice else a.currentPrice)
      = a.currentPrice := if_neg hcp
  have hnotended : ¬ a.status = AuctionStatus.ended := by simp [hlive]
  constructor
  · intro heq
    exact processOnChainBid_accept_run henv hfind hnotended
      (by rw [hfloor, ← heq]; exact lt_irrefl _) hexp
  · intro hlt
    exact processOnChainBid_belowMin_run henv hfind hnotended (by rw [hfloor]; exact hlt)

/-- C2 witness: on a live auction with currentPrice 100 and increment 10,
a 110 candidate is accepted and a 109 candidate rejected below minimum. -/
theorem minIncrement_boundary_witness :
    (processOnChainBid none 0 ⟨"t", 110, "erin", 1⟩
        (fun _ => ⟨some ⟨"aw", 50, 100, 10, 1000, .live, [], 0, none⟩, true⟩)
      = (.accepted (mkBid ⟨"aw", 50, 100, 10, 1000, .live, [], 0, none⟩ ⟨"t", 110, "erin", 1⟩),
         [commitAuction ⟨"aw", 50, 100, 10, 1000, .live, [], 0, none⟩ ⟨"t", 110, "erin", 1⟩]))
    ∧ (processOnChainBid none 0 ⟨"t", 109, "erin", 1⟩
        (fun _ => ⟨some ⟨"aw", 50, 100, 10, 1000, .live, [], 0, none⟩, true⟩)
      = (.rejected .belowMin, [])) :=
  ⟨(minIncrement_boundary none 0 ⟨"t", 110, "erin", 1⟩ _ _ rfl (by simp) rfl (by decide)
      (by norm_num)).1 (by norm_num),
   (minIncrement_boundary none 0 ⟨"t", 109, "erin", 1⟩ _ _ rfl (by simp) rfl (by decide)
      (by norm_num)).2 (by norm_num)⟩

/-- C10.  Zero-price fallback: when the stored `currentPrice` is 0 (the one
falsy rational), the minimum-increment rule is evaluated against
`startPrice + minimumIncrement` — smaller amounts are rejected below
minimum, and amounts at or above that floor are accepted — even though the
recorded current price is 0. -/
theorem zeroPrice_fallback :
    ∀ (verify : Option TxOnChain) (now : Int) (tx : TxData) (env : Nat → Attempt)
      (a : Auction),
    env 0 = ⟨some a, true⟩ →
    (∀ b ∈ a.bids, b.txHash ≠ tx.hash) →
    a.status = AuctionStatus.live →
    ¬ a.endTime < now →
    a.currentPrice = 0 →
    ((tx.amount < a.startPrice + a.minimumIncrement →
        processOnChainBid verify now tx env = (.rejected .belowMin, []))
     ∧ (¬ tx.amount < a.startPrice + a.minimumIncrement →
        processOnChainBid verify now tx env = (.accepted (mkBid a tx), [commitAuction a tx]))) := by
  intro verify now tx env a henv hne hlive hexp hcp
  have hfind := find?_none_of_fresh (h := tx.hash) hne
  have hfloor : (if a.currentPrice = 0 then a.startPrice else a.currentPrice)
      = a.startPrice := if_pos hcp
  have hnotended : ¬ a.status = AuctionStatus.ended := by simp [hlive]
  constructor
  · intro hlt
    exact processOnChainBid_belowMin_run henv hfind hnotended (by rw [hfloor]; exact hlt)
  · intro hge
    exact processOnChainBid_accept_run henv hfind hnotended (by rw [hfloor]; exact hge) hexp

/-- C10 witness: with currentPrice 0, startPrice 100, increment 10, a 109
candidate is rejected below minimum and a 110 candidate accepted. -/
theorem zeroPrice_fallback_witness :
    (processOnChainBid none 0 ⟨"tz", 109, "zoe", 1⟩
        (fun _ => ⟨some ⟨"az", 100, 0, 10, 1000, .live, [], 0, none⟩, true⟩)
      = (.rejected .belowMin, []))
    ∧ (processOnChainBid none 0 ⟨"tz", 110, "zoe", 1⟩
        (fun _ => ⟨some ⟨"az", 100, 0, 10, 1000, .live, [], 0, none⟩, true⟩)
      = (.accepted (mkBid ⟨"az", 100, 0, 10, 1000, .live, [], 0, none⟩ ⟨"tz", 110, "zoe", 1⟩),
         [commitAuction ⟨"az", 100, 0, 10, 1000, .live, [], 0, none⟩ ⟨"tz", 110, "zoe", 1⟩])) :=
  ⟨(zeroPrice_fallback none 0 ⟨"tz", 109, "zoe", 1⟩ _ _ rfl (by simp) rfl (by decide) rfl).1
      (by norm_num),
   (zeroPrice_fallback none 0 ⟨"tz", 110, "zoe", 1⟩ _ _ rfl (by simp) rfl (by decide) rfl).2
      (by norm_num)⟩

/-- C3 counterexample: with a successful ledger fetch whose single output
(999999999999 sompi) is nowhere near the claimed 111 KAS —
`hasMatchingOutput` is `some false`, a definitive mismatch — the persistent
engine still accepts and commits the candidate instead of rejecting it:
the strict-mode rejection at engine.ts line 60 is commented out. -/
theorem verification_mismatch_cex :
    hasMatchingOutput (some ⟨[999999999999]⟩) (⟨"t3", 111, "carol", 5⟩ : TxData).amount
      = some false
    ∧ processOnChainBid (some ⟨[999999999999]⟩) 0 ⟨"t3", 111, "carol", 5⟩
        (fun _ => ⟨some ⟨"a3", 50, 100, 10, 1000, .live, [], 0, none⟩, true⟩)
      = (.accepted (mkBid ⟨"a3", 50, 100, 10, 1000, .live, [], 0, none⟩ ⟨"t3", 111, "carol", 5⟩),
         [commitAuction ⟨"a3", 50, 100, 10, 1000, .live, [], 0, none⟩
            ⟨"t3", 111, "carol", 5⟩]) := by
  constructor
  · norm_num [hasMatchingOutput]
  · exact processOnChainBid_accept_run rfl rfl (by decide) (by norm_num) (by decide)

/-- C3 (amended).  In the persistent engine the on-chain re-verification is
advisory only: the outcome and the writes of `processOnChainBid` are
identical whatever the ledger returns — a mismatching transaction, a
matching one, or a failed fetch alike — so verification unavailability
never blocks processing, and a definitive mismatch is logged but does not
reject.  (The in-memory variant of the engine instead hard-rejects on an
exact first-output mismatch.) -/
theorem processOnChainBid_verifyIndependent :
    ∀ (v1 v2 : Option TxOnChain) (now : Int) (tx : TxData) (env : Nat → Attempt),
    processOnChainBid v1 now tx env = processOnChainBid v2 now tx env := by
  intro v1 v2 now tx env
  have hall : ∀ fuel k, processLoop v1 now tx env k fuel = processLoop v2 now tx env k fuel := by
    intro fuel
    induction fuel with
    | zero => intro k; rfl
    | succ m ih =>
      intro k
      have hA : processAttempt v1 now (env k).readAuction tx
          = processAttempt v2 now (env k).readAuction tx := rfl
      simp only [processLoop, hA, ih]
  exact hall 3 0

/-- C4.  Ended is terminal: an auction read with status `ended` rejects
every fresh candidate at the ended exit with no write; no retry attempt
that reads an ended auction ever produces a write (so no status
transition away from `ended` can be persisted by settlement); and
`finalizeAuction` always returns and persists the record with status
forced to `ended`. -/
theorem ended_terminal :
    (∀ (verify : Option TxOnChain) (now : Int) (tx : TxData) (env : Nat → Attempt)
        (a : Auction) (s : Bool),
        env 0 = ⟨some a, s⟩ → a.status = AuctionStatus.ended →
        (∀ b ∈ a.bids, b.txHash ≠ tx.hash) →
        processOnChainBid verify now tx env = (.rejected .ended, []))
    ∧ (∀ (verify : Option TxOnChain) (now : Int) (tx : TxData) (a : Auction),
        a.status = AuctionStatus.ended →
        (processAttempt verify now (some a) tx).write = none)
    ∧ (∀ a : Auction, finalizeAuction (some a) =
        (some { a with status := AuctionStatus.ended },
         some { a with status := AuctionStatus.ended })) := by
  refine ⟨?_, ?_, fun a => rfl⟩
  · intro verify now tx env a s henv hended hne
    exact processOnChainBid_ended_run henv (find?_none_of_fresh hne) hended
  · intro verify now tx a hended
    simp only [processAttempt]
    cases hf : a.bids.find? (fun b => b.txHash == tx.hash) <;> simp [hf, hended]

/-- C4 witness: a fresh candidate on a concretely ended auction is rejected
with no write, the attempt writes nothing, and finalizing a live auction
persists it ended. -/
theorem ended_terminal_witness :
    processOnChainBid none 0 ⟨"t4", 500, "finn", 1⟩
        (fun _ => ⟨some ⟨"a4", 50, 100, 10, 1000, .ended, [], 0, none⟩, true⟩)
      = (.rejected .ended, [])
    ∧ (processAttempt none 0 (some ⟨"a4", 50, 100, 10, 1000, .ended, [], 0, none⟩)
        ⟨"t4", 500, "finn", 1⟩).write = none
    ∧ finalizeAuction (some ⟨"a4", 50, 100, 10, 1000, .live, [], 0, none⟩)
      = (some ⟨"a4", 50, 100, 10, 1000, .ended, [], 0, none⟩,
         some ⟨"a4", 50, 100, 10, 1000, .ended, [], 0, none⟩) :=
  ⟨ended_terminal.1 none 0 ⟨"t4", 500, "finn", 1⟩ _ _ true rfl rfl (by simp),
   ended_terminal.2.1 none 0 ⟨"t4", 500, "finn", 1⟩ _ rfl,
   ended_terminal.2.2 ⟨"a4", 50, 100, 10, 1000, .live, [], 0, none⟩⟩

/-- C5 counterexample: a run that exhausts its three attempts on version
conflicts and a run rejected by a business rule (auction not found) hand
the caller the very same value — `null` — so the transient failure is not
distinguishable in the result reported to the caller; only log lines
differ. -/
theorem contention_indistinguishable_cex :
    (processOnChainBid none 0 ⟨"t5", 110, "eve", 1⟩
        (fun _ => ⟨some ⟨"a5", 50, 100, 10, 1000, .live, [], 0, none⟩, false⟩)).1
      = .rejected .conflictExhausted
    ∧ (processOnChainBid none 0 ⟨"t5", 110, "eve", 1⟩ (fun _ => ⟨none, true⟩)).1
      = .rejected .notFound
    ∧ retVal (processOnChainBid none 0 ⟨"t5", 110, "eve", 1⟩
        (fun _ => ⟨some ⟨"a5", 50, 100, 10, 1000, .live, [], 0, none⟩, false⟩)).1
      = retVal (processOnChainBid none 0 ⟨"t5", 110, "eve", 1⟩ (fun _ => ⟨none, true⟩)).1 := by
  have h1 := processOnChainBid_conflict_run
    (v := none) (n := 0) (t := ⟨"t5", 110, "eve", 1⟩)
    (e := fun _ => ⟨some ⟨"a5", 50, 100, 10, 1000, .live, [], 0, none⟩, false⟩)
    (a := ⟨"a5", 50, 100, 10, 1000, .live, [], 0, none⟩)
    (fun _ => rfl) rfl (by decide) (by norm_num) (by decide)
  have h2 := processOnChainBid_notFound_run
    (v := none) (n := 0) (t := ⟨"t5", 110, "eve", 1⟩)
    (e := fun _ => ⟨none, true⟩) (s := true) rfl
  exact ⟨by rw [h1], by rw [h2], by rw [h1, h2]; rfl⟩

/-- C5 (amended).  Exhausting the three optimistic-concurrency attempts is
a distinct internal exit (`conflictExhausted`, with its own log line), but
what the engine hands back to the caller is `null` — exactly the value
every business-rule rejection also returns — so the caller cannot
distinguish contention exhaustion from a rejection by the returned
result. -/
theorem contention_exhaustion_returnsNull :
    ∀ (verify : Option TxOnChain) (now : Int) (tx : TxData) (env : Nat → Attempt)
      (a : Auction),
    (∀ k, env k = ⟨some a, false⟩) →
    (∀ b ∈ a.bids, b.txHash ≠ tx.hash) →
    a.status = AuctionStatus.live →
    ¬ a.endTime < now →
    ¬ tx.amount < (if a.currentPrice = 0 then a.startPrice else a.currentPrice)
        + a.minimumIncrement →
    processOnChainBid verify now tx env = (.rejected .conflictExhausted, [])
    ∧ retVal (processOnChainBid verify now tx env).1 = none
    ∧ (∀ r : Reason, retVal (.rejected r) = none) := by
  intro verify now tx env a henv hne hlive hexp hmin
  have h := processOnChainBid_conflict_run (v := verify) (n := now) henv
    (find?_none_of_fresh hne) (by simp [hlive]) hmin hexp
  exact ⟨h, by rw [h]; rfl, fun r => rfl⟩

/-- C5 witness: a concrete valid candidate whose every save conflicts
exhausts the attempts and yields the caller `null`. -/
theorem contention_exhaustion_returnsNull_witness :
    processOnChainBid none 0 ⟨"t5w", 110, "eva", 1⟩
        (fun _ => ⟨some ⟨"a5w", 50, 100, 10, 1000, .live, [], 0, none⟩, false⟩)
      = (.rejected .conflictExhausted, [])
    ∧ retVal (processOnChainBid none 0 ⟨"t5w", 110, "eva", 1⟩
        (fun _ => ⟨some ⟨"a5w", 50, 100, 10, 1000, .live, [], 0, none⟩, false⟩)).1 = none
    ∧ (∀ r : Reason, retVal (.rejected r) = none) :=
  contention_exhaustion_returnsNull none 0 ⟨"t5w", 110, "eva", 1⟩ _ _
    (fun _ => rfl) (by simp) rfl (by decide) (by norm_num)

/-- C6.  Watcher cold start and per-UTXO emission: the first tick stores the
snapshot's keys as baseline and emits nothing; every later tick replaces
the baseline with the current keys, emits exactly one candidate per
snapshot UTXO whose identity key is new and whose transaction resolves,
and every emitted candidate comes from such a new, resolved UTXO of the
current snapshot — so a UTXO that disappeared, or one already in the
baseline, contributes nothing. -/
theorem watcher_delta_emission :
    ∀ (resolve : String → Option TxInfo) (st : WatchState) (utxos : List Utxo),
    (st.isFirst = true →
      checkTick resolve st utxos = (⟨utxos.map utxoKey, false⟩, []))
    ∧ ((utxos.map utxoKey).Nodup → st.isFirst = false →
        (checkTick resolve st utxos).1 = ⟨utxos.map utxoKey, false⟩
        ∧ (checkTick resolve st utxos).2.length =
            (utxos.filter fun u =>
              !(decide (utxoKey u ∈ st.lastSeen)) && (resolve u.txId).isSome).length
        ∧ ∀ c ∈ (checkTick resolve st utxos).2, ∃ u ∈ utxos,
            utxoKey u ∉ st.lastSeen ∧
            ∃ t, resolve u.txId = some t ∧ c = mkCandidate u t) := by
  intro resolve st utxos
  constructor
  · intro hfirst
    simp [checkTick, hfirst]
  · intro _ hsub
    refine ⟨by simp [checkTick], ?_, ?_⟩
    · simp only [checkTick, hsub, if_false]
      exact emitForTick_length resolve st.lastSeen utxos
    · intro c hc
      simp only [checkTick, hsub, if_false, emitForTick] at hc
      obtain ⟨u, hu, hsome⟩ := List.mem_filterMap.mp hc
      by_cases hcont : utxoKey u ∈ st.lastSeen
      · simp [hcont] at hsome
      · cases hr : resolve u.txId with
        | none => simp [hcont, hr] at hsome
        | some t =>
          simp only [hcont, if_false, hr] at hsome
          exact ⟨u, hu, hcont, t, hr, by simpa using hsome.symm⟩

/-- C6 witness: a cold-start tick over one UTXO stores its key and emits
nothing; the next tick over two UTXOs emits exactly one candidate — the
one for the newly appeared UTXO. -/
theorem watcher_delta_emission_witness :
    ((checkTick (fun _ => some ⟨some "payer", 9⟩) ⟨[], true⟩ [⟨"txx", 0, 300000000⟩]).1
        = ⟨[utxoKey ⟨"txx", 0, 300000000⟩], false⟩
      ∧ (checkTick (fun _ => some ⟨some "payer", 9⟩) ⟨[], true⟩ [⟨"txx", 0, 300000000⟩]).2 = [])
    ∧ (checkTick (fun _ => some ⟨some "payer", 9⟩)
          ⟨[utxoKey ⟨"txx", 0, 300000000⟩], false⟩
          [⟨"txx", 0, 300000000⟩, ⟨"txy", 1, 700000000⟩]).2.length =
        ([⟨"txx", 0, 300000000⟩, ⟨"txy", 1, 700000000⟩].filter fun u : Utxo =>
          !(decide (utxoKey u ∈ [utxoKey ⟨"txx", 0, 300000000⟩]))
            && ((fun _ => some (⟨some "payer", 9⟩ : TxInfo)) u.txId).isSome).length := by
  constructor
  · have h := (watcher_delta_emission (fun _ => some ⟨some "payer", 9⟩) ⟨[], true⟩
      [⟨"txx", 0, 300000000⟩]).1 rfl
    exact ⟨by rw [h]; rfl, by rw [h]⟩
  · exact ((watcher_delta_emission (fun _ => some ⟨some "payer", 9⟩)
      ⟨[utxoKey ⟨"txx", 0, 300000000⟩], false⟩
      [⟨"txx", 0, 300000000⟩, ⟨"txy", 1, 700000000⟩]).2 (by decide) rfl).2.1

/-- C7 (code bug).  A tick whose HTTP fetch fails does not keep the
baseline: `getAddressUtxos` swallows the error and returns the empty list,
so the tick replaces the stored baseline with the empty set (first
conjunct), and the next successful tick then re-emits a previously seen,
still-present UTXO as a brand-new candidate (second conjunct) — contrary
to the claim that a failed tick leaves the baseline unchanged and causes
no re-emission.  The non-array guard in `monitorAddress` that would
preserve the baseline can never fire on a fetch failure. -/
theorem watcher_failedFetch_collapsesBaseline :
    monitorTick (fun _ => some ⟨some "payer", 9⟩) true .fail
        ⟨[utxoKey ⟨"txa", 0, 500000000⟩], false⟩
      = (⟨[], false⟩, [])
    ∧ (monitorTick (fun _ => some ⟨some "payer", 9⟩) true (.ok [⟨"txa", 0, 500000000⟩])
        ⟨[], false⟩).2
      = [mkCandidate ⟨"txa", 0, 500000000⟩ ⟨some "payer", 9⟩] :=
  ⟨rfl, by simp [monitorTick, checkTick, getAddressUtxos, emitForTick]⟩

/-- C8.  Ledger client retry/failover: a not-found response is raised
immediately, short-circuiting the remaining retries and every fallback
endpoint (the trace stops at that single attempt); any other failure is
retried up to the fixed count of 3 per endpoint with exponential backoff
(1000ms then 2000ms) before moving to the next endpoint; a success at any
attempt returns that result; and exhausting every endpoint fails carrying
the last observed error. -/
theorem fetchWithRetry_policy :
    ∀ (f : String → Nat → AttemptR Nat Nat) (u1 u2 : String) (fbs : List String)
      (d en e0 e1 e2 e3 e4 e5 : Nat),
    (f u1 0 = .notFound en →
      fetchWithRetry f u1 fbs = (.error (some en), [(u1, 0)], []))
    ∧ (f u1 0 = .ok d →
      fetchWithRetry f u1 fbs = (.ok d, [(u1, 0)], []))
    ∧ (u2 ≠ u1 → f u1 0 = .fail e0 → f u1 1 = .fail e1 → f u1 2 = .fail e2 →
        f u2 0 = .ok d →
        fetchWithRetry f u1 [u2] =
          (.ok d, [(u1, 0), (u1, 1), (u1, 2), (u2, 0)], [1000, 2000]))
    ∧ (u2 ≠ u1 → f u1 0 = .fail e0 → f u1 1 = .fail e1 → f u1 2 = .fail e2 →
        f u2 0 = .fail e3 → f u2 1 = .fail e4 → f u2 2 = .fail e5 →
        fetchWithRetry f u1 [u2] =
          (.error (some e5), [(u1, 0), (u1, 1), (u1, 2), (u2, 0), (u2, 1), (u2, 2)],
           [1000, 2000, 1000, 2000])) := by
  intro f u1 u2 fbs d en e0 e1 e2 e3 e4 e5
  refine ⟨?_, ?_, ?_, ?_⟩
  · intro h
    simp [fetchWithRetry, runUrls, runUrl, h]
  · intro h
    simp [fetchWithRetry, runUrls, runUrl, h]
  · intro hne h0 h1 h2 hok
    simp [fetchWithRetry, runUrls, runUrl, h0, h1, h2, hok, hne]
  · intro hne h0 h1 h2 h3 h4 h5
    simp [fetchWithRetry, runUrls, runUrl, h0, h1, h2, h3, h4, h5, hne]

/-- C8 witness: an oracle answering not-found on the very first attempt
raises it with a one-entry trace and no backoff; an oracle failing three
times on endpoint e1 then succeeding on e2 returns the success after the
full e1 retry trace with backoffs 1000 and 2000. -/
theorem fetchWithRetry_policy_witness :
    fetchWithRetry (fun (_ : String) (_ : Nat) => (AttemptR.notFound 7 : AttemptR Nat Nat))
        "e1" ["e2"] = (.error (some 7), [("e1", 0)], [])
    ∧ fetchWithRetry c8f "e1" ["e2"] =
        (.ok 42, [("e1", 0), ("e1", 1), ("e1", 2), ("e2", 0)], [1000, 2000]) :=
  ⟨(fetchWithRetry_policy (fun _ _ => (AttemptR.notFound 7 : AttemptR Nat Nat)) "e1" "e2"
      ["e2"] 0 7 0 0 0 0 0 0).1 rfl,
   (fetchWithRetry_policy c8f "e1" "e2" [] 42 0 100 101 102 0 0 0).2.2.1
      (by decide) rfl rfl rfl rfl⟩

/-- C9 counterexample: `cleanupOldAuctions` deletes by age alone —
a 60-day-old ended auction that still holds a bid is removed from the
store, so a non-empty bid list does not protect a record from every
operation of this core. -/
theorem auditRetention_cex :
    (⟨"aold", 50, 100, 10, 0, .ended,
        [⟨"hb", "aold", "bob", 100, 1, .detected, "hb"⟩], 1, some "bob"⟩ : Auction).bids ≠ []
    ∧ cleanupOldAuctions 5184000001
        [⟨"aold", 50, 100, 10, 0, .ended,
          [⟨"hb", "aold", "bob", 100, 1, .detected, "hb"⟩], 1, some "bob"⟩] = [] := by
  refine ⟨by simp, ?_⟩
  simp [cleanupOldAuctions, twoMonthsMs]

/-- C9 (amended).  Audit retention: `deleteAuction` refuses and leaves the
store intact whenever the targeted auction's bid list is non-empty; the
one exception to retention is the 60-day purge, which keeps every auction
whose `endTime` is within the retention window — only records older than
the cutoff are removed, regardless of their bids. -/
theorem auditRetention_amended :
    ∀ (store : List Auction) (auctionId : String) (a : Auction) (now : Int),
    (store.find? (fun x => x.id == auctionId) = some a → a.bids ≠ [] →
      deleteAuction store auctionId = (false, store))
    ∧ (a ∈ store → ¬ a.endTime < now - twoMonthsMs → a ∈ cleanupOldAuctions now store) := by
  intro store auctionId a now
  constructor
  · intro hfind hbids
    have hpos : 0 < a.bids.length := List.length_pos.mpr hbids
    simp [deleteAuction, hfind, hpos]
  · intro hmem hrecent
    exact List.mem_filter.mpr ⟨hmem, by simp [hrecent]⟩

/-- C9 witness: deleting the bid-holding `c9Auction` is refused with the
store intact, and a cleanup run at a recent time retains it. -/
theorem auditRetention_amended_witness :
    deleteAuction [c9Auction] "ak" = (false, [c9Auction])
    ∧ c9Auction ∈ cleanupOldAuctions 100 [c9Auction] :=
  ⟨(auditRetention_amended [c9Auction] "ak" c9Auction 100).1 (by simp [c9Auction])
      (by simp [c9Auction]),
   (auditRetention_amended [c9Auction] "ak" c9Auction 100).2 (by simp) (by decide)⟩

end KaspaAuction
